import Mathlib

/-!
Verification of the caskdb SSTable footer/handle codec (`src/sstable/mod.rs`),
the storage layer's `read_exact_at` loop (`src/storage/mod.rs`), and the
database filename round-trip (`src/db/filename.rs`).

Byte strings are modelled as `List Nat` (each entry a byte value), text as
`List Char`.  The varint and fixed-width integer codecs live in
`util/varint.rs` / `util/coding.rs`, which are not part of the sources under
`src/`; those two leaves are modelled from the specification's words
("unsigned varint up to 10 bytes", "little-endian fixed 32/64-bit integers"),
as marked on each definition.
-/

/-- Kinds of `std::io::Error` distinguished by the verified code:
`Interrupted` (retried by `read_exact_at`), `UnexpectedEof` (produced on a
short read), and every other kind collapsed into `otherKind`. -/
inductive IOKind where
  | interrupted
  | unexpectedEof
  | otherKind (n : Nat)
deriving DecidableEq

/-- Error type of the repository (`crate::Error`), restricted to the variants
the verified functions construct or inspect: `Corruption(msg)`, `IO(err)`
(an IO error carries a kind and a message), and a stand-in for every other
variant (which `read_exact_at` only passes through). The constructor for the
IO variant is named `ioError` here. -/
inductive Error where
  | Corruption (msg : String)
  | ioError (kind : IOKind) (msg : String)
  | otherErr (tag : Nat)
deriving DecidableEq

deriving instance DecidableEq for Except

/-- Modelled from the spec: `util/varint.rs` (not under `src/`) provides the
unsigned varint codec ("unsigned varint up to 10 bytes").  `put_varint`
appends the base-128 little-endian digits of `n`, setting the high bit on
every byte except the last.  Implemented with a fuel argument (`n + 1` is
always enough fuel) so that the definition reduces by `rfl`/`decide`. -/
def putVarintAux : Nat → Nat → List Nat
  | _, 0 => []
  | n, fuel + 1 =>
    if n < 128 then [n]
    else (n % 128 + 128) :: putVarintAux (n / 128) fuel

/-- Modelled from the spec: `VarintU64::put_varint` (see `putVarintAux`). -/
def VarintU64.put_varint (n : Nat) : List Nat :=
  putVarintAux n (n + 1)

/-- Modelled from the spec: decoding loop of `VarintU64::read`.  `shift` is
the current bit shift, `i` the number of bytes consumed so far, `acc` the
value assembled so far.  A varint is at most 10 bytes, so a byte at index 10
(or running out of input before a terminating byte) is a decode failure. -/
def readVarintAux : List Nat → Nat → Nat → Nat → Option (Nat × Nat)
  | [], _, _, _ => none
  | b :: rest, shift, i, acc =>
    if 10 ≤ i then none
    else if b < 128 then some (acc + b * 2 ^ shift, i + 1)
    else readVarintAux rest (shift + 7) (i + 1) (acc + b % 128 * 2 ^ shift)

/-- Modelled from the spec: `VarintU64::read` decodes an unsigned varint of
at most 10 bytes from the front of `src`, returning the value and the number
of bytes consumed, or `none` on truncated or overlong input. -/
def VarintU64.read (src : List Nat) : Option (Nat × Nat) :=
  readVarintAux src 0 0 0

/-- `MAX_VARINT_LEN_U64` from `util/varint.rs` (value given by the spec). -/
def MAX_VARINT_LEN_U64 : Nat := 10

/-- `MAX_BLOCK_HANDLE_ENCODE_LENGTH` (`src/sstable/mod.rs`). -/
def MAX_BLOCK_HANDLE_ENCODE_LENGTH : Nat := 2 * MAX_VARINT_LEN_U64

/-- `FOOTER_ENCODED_LENGTH` (`src/sstable/mod.rs`): two block handles plus an
8-byte magic. -/
def FOOTER_ENCODED_LENGTH : Nat := 2 * MAX_BLOCK_HANDLE_ENCODE_LENGTH + 8

/-- `TABLE_MAGIC_NUMBER` (`src/sstable/mod.rs`). -/
def TABLE_MAGIC_NUMBER : Nat := 0xdb4775248b80fb57

/-- `BlockHandle` (`src/sstable/mod.rs`): offset and size of a block within
the table file; both fields are `u64` in the source. -/
structure BlockHandle where
  offset : Nat
  size : Nat
deriving DecidableEq

/-- `BlockHandle::new`. -/
def BlockHandle.new (offset size : Nat) : BlockHandle := ⟨offset, size⟩

/-- `BlockHandle::encoded_to`: append the varint encodings of offset and size
to `dst`. -/
def BlockHandle.encoded_to (h : BlockHandle) (dst : List Nat) : List Nat :=
  dst ++ VarintU64.put_varint h.offset ++ VarintU64.put_varint h.size

/-- `BlockHandle::encoded`: the encoding appended to an empty vector. -/
def BlockHandle.encoded (h : BlockHandle) : List Nat :=
  h.encoded_to []

/-- `BlockHandle::decode_from`: read two varints (offset, then size, the
latter from `&src[n..]`); on either failure return
`Corruption("bad block handle")`. -/
def BlockHandle.decode_from (src : List Nat) : Except Error (BlockHandle × Nat) :=
  match VarintU64.read src with
  | some (offset, n) =>
    match VarintU64.read (src.drop n) with
    | some (size, m) => .ok (BlockHandle.new offset size, m + n)
    | none => .error (.Corruption "bad block handle")
  | none => .error (.Corruption "bad block handle")

/-- Modelled from the spec: `util/coding.rs` `put_fixed_64` (not under
`src/`): append the 8 little-endian bytes of `n` ("little-endian fixed
32/64-bit integers"). -/
def put_fixed_64 (dst : List Nat) (n : Nat) : List Nat :=
  dst ++ [n % 256, n / 2 ^ 8 % 256, n / 2 ^ 16 % 256, n / 2 ^ 24 % 256,
          n / 2 ^ 32 % 256, n / 2 ^ 40 % 256, n / 2 ^ 48 % 256, n / 2 ^ 56 % 256]

/-- Modelled from the spec: `util/coding.rs` `decode_fixed_64` (not under
`src/`): read the first 8 bytes of `src` as a little-endian 64-bit integer.
The spec's fixed 64-bit codec consumes exactly 8 bytes, so inputs shorter
than 8 bytes are outside its domain; `Footer.decode_from` below accounts for
that by requiring a full footer. -/
def decode_fixed_64 (src : List Nat) : Nat :=
  src.getD 0 0 + src.getD 1 0 * 2 ^ 8 + src.getD 2 0 * 2 ^ 16 +
  src.getD 3 0 * 2 ^ 24 + src.getD 4 0 * 2 ^ 32 + src.getD 5 0 * 2 ^ 40 +
  src.getD 6 0 * 2 ^ 48 + src.getD 7 0 * 2 ^ 56

/-- `Vec::resize(n, 0)` as used by `Footer::encoded`: truncate or zero-pad
the vector to length exactly `n`. -/
def listResize (l : List Nat) (n : Nat) : List Nat :=
  l.take n ++ List.replicate (n - l.length) 0

/-- `Footer` (`src/sstable/mod.rs`): the handles of the metaindex block and
the index block. -/
structure Footer where
  meta_index_handle : BlockHandle
  index_handle : BlockHandle
deriving DecidableEq

/-- `Footer::new`. -/
def Footer.new (meta_index_handle index_handle : BlockHandle) : Footer :=
  ⟨meta_index_handle, index_handle⟩

/-- `Footer::encoded`: encode both handles back to back, resize the buffer to
`2 * MAX_BLOCK_HANDLE_ENCODE_LENGTH` (= 40) bytes, then append the fixed
64-bit magic. -/
def Footer.encoded (f : Footer) : List Nat :=
  put_fixed_64
    (listResize (f.index_handle.encoded_to (f.meta_index_handle.encoded_to []))
      (2 * MAX_BLOCK_HANDLE_ENCODE_LENGTH))
    TABLE_MAGIC_NUMBER

/-- `Footer::decode_from`.  The source first slices
`src[FOOTER_ENCODED_LENGTH - 8..]` and feeds it to `decode_fixed_64`; a full
8-byte magic field therefore requires at least `FOOTER_ENCODED_LENGTH` bytes
of input, and shorter input is a panic, modelled as `none`.  Otherwise the
magic is compared, then both handles are decoded from the front of `src`. -/
def Footer.decode_from (src : List Nat) : Option (Except Error (Footer × Nat)) :=
  if src.length < FOOTER_ENCODED_LENGTH then none
  else if decode_fixed_64 (src.drop (FOOTER_ENCODED_LENGTH - 8)) ≠ TABLE_MAGIC_NUMBER then
    some (.error (.Corruption "not an sstable (bad magic number)"))
  else
    match BlockHandle.decode_from src with
    | .ok (meta_index_handle, n) =>
      match BlockHandle.decode_from (src.drop n) with
      | .ok (index_handle, m) =>
        some (.ok (Footer.new meta_index_handle index_handle, m + n))
      | .error e => some (.error e)
    | .error e => some (.error e)

lemma putVarintAux_congr : ∀ f1 n f2 : Nat, n < f1 → n < f2 →
    putVarintAux n f1 = putVarintAux n f2 := by
  intro f1
  induction f1 with
  | zero => intro n f2 h1 _; omega
  | succ f ih =>
    intro n f2 h1 h2
    cases f2 with
    | zero => omega
    | succ g =>
      by_cases hn : n < 128
      · simp [putVarintAux, hn]
      · have hd : n / 128 < n := Nat.div_lt_self (by omega) (by omega)
        simp only [putVarintAux, if_neg hn]
        rw [ih (n / 128) g (by omega) (by omega)]

/-- One-step unfolding of `put_varint`, hiding the fuel. -/
lemma put_varint_eq (n : Nat) :
    VarintU64.put_varint n =
      if n < 128 then [n]
      else (n % 128 + 128) :: VarintU64.put_varint (n / 128) := by
  unfold VarintU64.put_varint
  conv_lhs => rw [putVarintAux]
  by_cases hn : n < 128
  · rw [if_pos hn, if_pos hn]
  · have hd : n / 128 < n := Nat.div_lt_self (by omega) (by omega)
    rw [if_neg hn, if_neg hn]
    congr 1
    exact putVarintAux_congr n (n / 128) (n / 128 + 1) (by omega) (by omega)

/-- A value below `128 ^ k` encodes in at most `k` varint bytes. -/
lemma put_varint_length_le (k : Nat) : ∀ n : Nat, 0 < k → n < 128 ^ k →
    (VarintU64.put_varint n).length ≤ k := by
  induction k with
  | zero => intro n h; omega
  | succ k ih =>
    intro n _ hn
    rw [put_varint_eq]
    by_cases h : n < 128
    · simp [h]
    · have hk : 0 < k := by
        rcases Nat.eq_zero_or_pos k with hk0 | hk0
        · subst hk0; simp at hn; omega
        · exact hk0
      have hdiv : n / 128 < 128 ^ k := by
        rw [Nat.div_lt_iff_lt_mul (by omega : 0 < 128)]
        calc n < 128 ^ (k + 1) := hn
          _ = 128 ^ k * 128 := by rw [pow_succ]
      simp only [if_neg h, List.length_cons]
      have := ih (n / 128) hk hdiv
      omega

/-- A `put_varint` encoding followed by arbitrary bytes decodes back to the
encoded value, consuming exactly the encoding. -/
lemma readVarintAux_put (n : Nat) : ∀ shift i acc (rest : List Nat),
    i + (VarintU64.put_varint n).length ≤ 10 →
    readVarintAux (VarintU64.put_varint n ++ rest) shift i acc =
      some (acc + n * 2 ^ shift, i + (VarintU64.put_varint n).length) := by
  induction n using Nat.strong_induction_on with
  | _ n ih =>
    intro shift i acc rest hlen
    rw [put_varint_eq] at hlen ⊢
    by_cases h : n < 128
    · simp only [if_pos h, List.length_cons, List.length_nil] at hlen ⊢
      simp only [List.cons_append, List.nil_append, readVarintAux]
      rw [if_neg (by omega : ¬ 10 ≤ i), if_pos h]
    · have hd : n / 128 < n := Nat.div_lt_self (by omega) (by omega)
      simp only [if_neg h, List.length_cons] at hlen ⊢
      simp only [List.cons_append, readVarintAux, List.append_eq]
      rw [if_neg (by omega : ¬ 10 ≤ i), if_neg (by omega : ¬ n % 128 + 128 < 128)]
      rw [ih (n / 128) hd (shift + 7) (i + 1) (acc + (n % 128 + 128) % 128 * 2 ^ shift)
        rest (by omega)]
      have hmod : (n % 128 + 128) % 128 = n % 128 := by omega
      have hpow : (2 : Nat) ^ (shift + 7) = 2 ^ shift * 128 := by
        rw [pow_add]; norm_num
      have hval : acc + n % 128 * 2 ^ shift + n / 128 * 2 ^ (shift + 7) =
          acc + n * 2 ^ shift := by
        rw [hpow]
        conv_rhs => rw [← Nat.div_add_mod n 128]
        ring
      rw [hmod, hval]
      have harith : i + 1 + (VarintU64.put_varint (n / 128)).length =
          i + ((VarintU64.put_varint (n / 128)).length + 1) := by omega
      rw [harith]

/-- Top-level decoding of a varint-encoded value with trailing bytes. -/
lemma VarintU64.read_put (n : Nat) (rest : List Nat) (h : n < 2 ^ 64) :
    VarintU64.read (VarintU64.put_varint n ++ rest) =
      some (n, (VarintU64.put_varint n).length) := by
  have hlen : (VarintU64.put_varint n).length ≤ 10 :=
    put_varint_length_le 10 n (by omega)
      (by calc n < 2 ^ 64 := h
            _ ≤ 128 ^ 10 := by norm_num)
  unfold VarintU64.read
  rw [readVarintAux_put n 0 0 0 rest (by omega)]
  simp

lemma put_varint_le_10 (n : Nat) (h : n < 2 ^ 64) :
    (VarintU64.put_varint n).length ≤ 10 :=
  put_varint_length_le 10 n (by omega)
    (by calc n < 2 ^ 64 := h
          _ ≤ 128 ^ 10 := by norm_num)

example : VarintU64.put_varint 300 = [172, 2] := by decide
example : VarintU64.read [172, 2, 9] = some (300, 2) := by decide
example : BlockHandle.decode_from (BlockHandle.encoded ⟨300, 100⟩) =
    .ok (⟨300, 100⟩, 3) := by decide
example : (Footer.encoded (Footer.new ⟨300, 100⟩ ⟨401, 1000⟩)).length = 48 := by decide
example :
    Footer.decode_from (Footer.encoded (Footer.new ⟨300, 100⟩ ⟨401, 1000⟩)) =
      some (.ok (Footer.new ⟨300, 100⟩ ⟨401, 1000⟩, 7)) := by decide

/-- Claim C1: for every `BlockHandle` with `u64` offset and size, decoding the
varint encoding produced by `BlockHandle::encoded` succeeds, yields an equal
handle, and reports a consumed-byte count equal to the encoding's length. -/
theorem blockhandle_codec_roundtrip (offset size : Nat)
    (ho : offset < 2 ^ 64) (hs : size < 2 ^ 64) :
    BlockHandle.decode_from (BlockHandle.encoded ⟨offset, size⟩) =
      .ok (⟨offset, size⟩, (BlockHandle.encoded ⟨offset, size⟩).length) := by
  have henc : BlockHandle.encoded ⟨offset, size⟩ =
      VarintU64.put_varint offset ++ VarintU64.put_varint size := by
    simp [BlockHandle.encoded, BlockHandle.encoded_to]
  rw [henc]
  unfold BlockHandle.decode_from
  rw [VarintU64.read_put offset _ ho]
  simp only [List.drop_left]
  have h2 : VarintU64.read (VarintU64.put_varint size) =
      some (size, (VarintU64.put_varint size).length) := by
    have := VarintU64.read_put size [] hs
    simpa using this
  rw [h2]
  simp [BlockHandle.new, Nat.add_comm]

/-- Witness for C1 at a concrete handle. -/
theorem blockhandle_codec_roundtrip_witness :
    BlockHandle.decode_from (BlockHandle.encoded ⟨300, 100⟩) =
      .ok (⟨300, 100⟩, 3) :=
  blockhandle_codec_roundtrip 300 100 (by norm_num) (by norm_num)

/-- Claim C6: every `BlockHandle` with `u64` fields encodes to at most
`MAX_BLOCK_HANDLE_ENCODE_LENGTH` (= 20) bytes. -/
theorem blockhandle_encoded_length_le (offset size : Nat)
    (ho : offset < 2 ^ 64) (hs : size < 2 ^ 64) :
    (BlockHandle.encoded ⟨offset, size⟩).length ≤ MAX_BLOCK_HANDLE_ENCODE_LENGTH := by
  have h1 := put_varint_le_10 offset ho
  have h2 := put_varint_le_10 size hs
  simp only [BlockHandle.encoded, BlockHandle.encoded_to, List.nil_append,
    List.length_append, MAX_BLOCK_HANDLE_ENCODE_LENGTH, MAX_VARINT_LEN_U64]
  omega

/-- Witness for C6 at a concrete handle. -/
theorem blockhandle_encoded_length_le_witness :
    (BlockHandle.encoded ⟨300, 100⟩).length ≤ MAX_BLOCK_HANDLE_ENCODE_LENGTH :=
  blockhandle_encoded_length_le 300 100 (by norm_num) (by norm_num)

/-- Claim C7: `BlockHandle::decode_from` returns `Ok` exactly when two
varints decode in sequence from the input, and every error it returns is
`Corruption("bad block handle")`. -/
theorem blockhandle_decode_corruption (src : List Nat) :
    ((∃ h n, BlockHandle.decode_from src = .ok (h, n)) ↔
      (∃ o n, VarintU64.read src = some (o, n) ∧
        ∃ s m, VarintU64.read (src.drop n) = some (s, m))) ∧
    ∀ e, BlockHandle.decode_from src = .error e →
      e = .Corruption "bad block handle" := by
  unfold BlockHandle.decode_from
  rcases h1 : VarintU64.read src with _ | ⟨o, n⟩
  · simp [h1]
  · rcases h2 : VarintU64.read (src.drop n) with _ | ⟨s, m⟩
    · simp [h1, h2]
    · simp [h1, h2]
      exact ⟨o, n, ⟨rfl, rfl⟩, s, m, h2⟩

/-- Witness for C7: a concrete input where both varints decode. -/
theorem blockhandle_decode_corruption_witness :
    ∃ h n, BlockHandle.decode_from [0, 0] = Except.ok (h, n) :=
  (blockhandle_decode_corruption [0, 0]).1.mpr
    ⟨0, 1, by decide, 0, 1, by decide⟩

/-- The little-endian bytes of `TABLE_MAGIC_NUMBER`. -/
def magicBytes : List Nat := [0x57, 0xfb, 0x80, 0x8b, 0x24, 0x75, 0x47, 0xdb]

lemma put_fixed_64_magic (dst : List Nat) :
    put_fixed_64 dst TABLE_MAGIC_NUMBER = dst ++ magicBytes := by
  unfold put_fixed_64 TABLE_MAGIC_NUMBER magicBytes
  congr 1

lemma listResize_length (l : List Nat) (n : Nat) : (listResize l n).length = n := by
  simp only [listResize, List.length_append, List.length_take, List.length_replicate]
  omega

lemma listResize_of_le (l : List Nat) (n : Nat) (h : l.length ≤ n) :
    listResize l n = l ++ List.replicate (n - l.length) 0 := by
  simp [listResize, List.take_of_length_le h]

lemma take_length_append {α : Type} (l r : List α) (n : Nat) (h : l.length = n) :
    (l ++ r).take n = l := by
  subst h; exact List.take_left l r

lemma drop_length_append {α : Type} (l r : List α) (n : Nat) (h : l.length = n) :
    (l ++ r).drop n = r := by
  subst h; exact List.drop_left l r

/-- `Footer::encoded` is the two handle encodings resized to 40 bytes,
followed by the magic bytes. -/
lemma footer_encoded_split (f : Footer) :
    Footer.encoded f =
      listResize (f.meta_index_handle.encoded ++ f.index_handle.encoded) 40 ++
        magicBytes := by
  unfold Footer.encoded
  rw [put_fixed_64_magic]
  have hbody : f.index_handle.encoded_to (f.meta_index_handle.encoded_to []) =
      f.meta_index_handle.encoded ++ f.index_handle.encoded := by
    simp [BlockHandle.encoded, BlockHandle.encoded_to]
  have hforty : 2 * MAX_BLOCK_HANDLE_ENCODE_LENGTH = 40 := by
    norm_num [MAX_BLOCK_HANDLE_ENCODE_LENGTH, MAX_VARINT_LEN_U64]
  rw [hbody, hforty]

lemma footer_encoded_length (f : Footer) : (Footer.encoded f).length = 48 := by
  rw [footer_encoded_split]
  simp [listResize_length, magicBytes]

lemma footer_encoded_drop40 (f : Footer) :
    (Footer.encoded f).drop 40 = magicBytes := by
  rw [footer_encoded_split]
  exact drop_length_append _ _ _ (listResize_length _ _)

lemma footer_encoded_take40 (f : Footer) :
    (Footer.encoded f).take 40 =
      listResize (f.meta_index_handle.encoded ++ f.index_handle.encoded) 40 := by
  rw [footer_encoded_split]
  exact take_length_append _ _ _ (listResize_length _ _)

/-- `FOOTER_ENCODED_LENGTH` and the magic offset, as numerals. -/
lemma footer_length_const : FOOTER_ENCODED_LENGTH = 48 ∧ FOOTER_ENCODED_LENGTH - 8 = 40 := by
  norm_num [FOOTER_ENCODED_LENGTH, MAX_BLOCK_HANDLE_ENCODE_LENGTH, MAX_VARINT_LEN_U64]

/-- Decoding a block handle from two varint encodings followed by arbitrary
trailing bytes. -/
lemma blockhandle_decode_front (o s : Nat) (rest : List Nat)
    (ho : o < 2 ^ 64) (hs : s < 2 ^ 64) :
    BlockHandle.decode_from
        (VarintU64.put_varint o ++ (VarintU64.put_varint s ++ rest)) =
      .ok (BlockHandle.new o s,
        (VarintU64.put_varint s).length + (VarintU64.put_varint o).length) := by
  unfold BlockHandle.decode_from
  rw [VarintU64.read_put o _ ho]
  simp only [List.drop_left]
  rw [VarintU64.read_put s rest hs]

/-- Claim C3: for every pair of block handles, `Footer::encoded` produces
exactly 48 bytes: the two block-handle fields padded to 40 bytes total,
followed by the magic number `0xDB4775248B80FB57` in little-endian order as
the last 8 bytes. -/
theorem footer_encoded_layout (f : Footer) :
    (Footer.encoded f).length = 48 ∧
    (Footer.encoded f).take 40 =
      listResize (f.meta_index_handle.encoded ++ f.index_handle.encoded) 40 ∧
    (Footer.encoded f).drop 40 = [0x57, 0xfb, 0x80, 0x8b, 0x24, 0x75, 0x47, 0xdb] ∧
    decode_fixed_64 ((Footer.encoded f).drop 40) = TABLE_MAGIC_NUMBER := by
  refine ⟨footer_encoded_length f, footer_encoded_take40 f, ?_, ?_⟩
  · rw [footer_encoded_drop40]
    rfl
  · rw [footer_encoded_drop40]
    decide

/-- Claim C2: a 48-byte footer whose trailing 8 bytes decode (little-endian)
to anything other than the magic number is rejected by `Footer::decode_from`
with `Corruption("not an sstable (bad magic number)")`. -/
theorem footer_bad_magic (src : List Nat) (hlen : src.length = FOOTER_ENCODED_LENGTH)
    (hmagic : decode_fixed_64 (src.drop (FOOTER_ENCODED_LENGTH - 8)) ≠ TABLE_MAGIC_NUMBER) :
    Footer.decode_from src =
      some (.error (.Corruption "not an sstable (bad magic number)")) := by
  unfold Footer.decode_from
  rw [if_neg (by rw [hlen]; omega), if_pos hmagic]

/-- Witness for C2: the encoded footer of the source's own test, with its
last magic byte incremented. -/
theorem footer_bad_magic_witness :
    Footer.decode_from
        ((Footer.encoded (Footer.new (BlockHandle.new 300 100)
            (BlockHandle.new 401 1000))).dropLast ++ [0xdc]) =
      some (.error (.Corruption "not an sstable (bad magic number)")) :=
  footer_bad_magic _ (by decide) (by decide)

/-- Claim C5: decoding an encoded footer succeeds (the magic validates) and
returns the original pair of handles. -/
theorem footer_codec_roundtrip (mo ms io isz : Nat)
    (h1 : mo < 2 ^ 64) (h2 : ms < 2 ^ 64) (h3 : io < 2 ^ 64) (h4 : isz < 2 ^ 64) :
    ∃ n, Footer.decode_from (Footer.encoded (Footer.new ⟨mo, ms⟩ ⟨io, isz⟩)) =
      some (.ok (Footer.new ⟨mo, ms⟩ ⟨io, isz⟩, n)) := by
  have la := put_varint_le_10 mo h1
  have lb := put_varint_le_10 ms h2
  have lc := put_varint_le_10 io h3
  have ld := put_varint_le_10 isz h4
  have hbody : (Footer.new ⟨mo, ms⟩ ⟨io, isz⟩).meta_index_handle.encoded ++
      (Footer.new ⟨mo, ms⟩ ⟨io, isz⟩).index_handle.encoded =
      VarintU64.put_varint mo ++ (VarintU64.put_varint ms ++
        (VarintU64.put_varint io ++ VarintU64.put_varint isz)) := by
    simp [Footer.new, BlockHandle.encoded, BlockHandle.encoded_to]
  have hlenbody : (VarintU64.put_varint mo ++ (VarintU64.put_varint ms ++
      (VarintU64.put_varint io ++ VarintU64.put_varint isz))).length ≤ 40 := by
    simp only [List.length_append]
    omega
  have hE : Footer.encoded (Footer.new ⟨mo, ms⟩ ⟨io, isz⟩) =
      VarintU64.put_varint mo ++ (VarintU64.put_varint ms ++
        (VarintU64.put_varint io ++ (VarintU64.put_varint isz ++
          (List.replicate (40 - (VarintU64.put_varint mo ++ (VarintU64.put_varint ms ++
            (VarintU64.put_varint io ++ VarintU64.put_varint isz))).length) 0 ++
            magicBytes)))) := by
    rw [footer_encoded_split, hbody, listResize_of_le _ _ hlenbody]
    simp [List.append_assoc]
  have hdec1 : BlockHandle.decode_from
      (Footer.encoded (Footer.new ⟨mo, ms⟩ ⟨io, isz⟩)) =
      .ok (BlockHandle.new mo ms,
        (VarintU64.put_varint ms).length + (VarintU64.put_varint mo).length) := by
    rw [hE]
    exact blockhandle_decode_front mo ms _ h1 h2
  have hdroppre : (Footer.encoded (Footer.new ⟨mo, ms⟩ ⟨io, isz⟩)).drop
      ((VarintU64.put_varint ms).length + (VarintU64.put_varint mo).length) =
      VarintU64.put_varint io ++ (VarintU64.put_varint isz ++
        (List.replicate (40 - (VarintU64.put_varint mo ++ (VarintU64.put_varint ms ++
          (VarintU64.put_varint io ++ VarintU64.put_varint isz))).length) 0 ++
          magicBytes)) := by
    rw [hE, ← List.append_assoc]
    exact drop_length_append _ _ _ (by simp [Nat.add_comm])
  have hdec2 : BlockHandle.decode_from
      ((Footer.encoded (Footer.new ⟨mo, ms⟩ ⟨io, isz⟩)).drop
        ((VarintU64.put_varint ms).length + (VarintU64.put_varint mo).length)) =
      .ok (BlockHandle.new io isz,
        (VarintU64.put_varint isz).length + (VarintU64.put_varint io).length) := by
    rw [hdroppre]
    exact blockhandle_decode_front io isz _ h3 h4
  have hlen48 := footer_encoded_length (Footer.new ⟨mo, ms⟩ ⟨io, isz⟩)
  have hmagic : decode_fixed_64
      ((Footer.encoded (Footer.new ⟨mo, ms⟩ ⟨io, isz⟩)).drop
        (FOOTER_ENCODED_LENGTH - 8)) = TABLE_MAGIC_NUMBER := by
    rw [footer_length_const.2, footer_encoded_drop40]
    decide
  refine ⟨(VarintU64.put_varint isz).length + (VarintU64.put_varint io).length +
    ((VarintU64.put_varint ms).length + (VarintU64.put_varint mo).length), ?_⟩
  unfold Footer.decode_from
  rw [if_neg (by rw [hlen48, footer_length_const.1]; omega),
    if_neg (fun hne => hne hmagic)]
  simp only [hdec1, hdec2]
  rfl

/-- Witness for C5 at the source test's handles. -/
theorem footer_codec_roundtrip_witness :
    ∃ n, Footer.decode_from (Footer.encoded (Footer.new ⟨300, 100⟩ ⟨401, 1000⟩)) =
      some (.ok (Footer.new ⟨300, 100⟩ ⟨401, 1000⟩, n)) :=
  footer_codec_roundtrip 300 100 401 1000 (by norm_num) (by norm_num)
    (by norm_num) (by norm_num)

/-- Counterexample for claim C4: in the footer for handles `(0,0)` and
`(1,2)`, decoding consumes 4 bytes in total (so the index handle was read
immediately after the 2-byte metaindex encoding, not at offset 20), the
bytes at offset 20 are zero padding decoding to the zero handle, and the
first four bytes are both varint pairs back to back. -/
theorem footer_index_handle_not_at_offset_20 :
    Footer.decode_from
        (Footer.encoded (Footer.new (BlockHandle.new 0 0) (BlockHandle.new 1 2))) =
      some (.ok (Footer.new (BlockHandle.new 0 0) (BlockHandle.new 1 2), 4)) ∧
    (Footer.encoded (Footer.new (BlockHandle.new 0 0) (BlockHandle.new 1 2))).take 4 =
      [0, 0, 1, 2] ∧
    BlockHandle.decode_from
        ((Footer.encoded (Footer.new (BlockHandle.new 0 0)
          (BlockHandle.new 1 2))).drop 20) =
      .ok (BlockHandle.new 0 0, 2) ∧
    BlockHandle.new 0 0 ≠ BlockHandle.new 1 2 :=
  ⟨by decide, by decide, by decide, by decide⟩

/-- Amended claim C4: the two handles' varint encodings are written back to
back from offset 0 and the pair is zero-padded to 40 bytes; the index
handle's encoding begins immediately after the metaindex handle's encoding
(not at byte offset 20), and decoding reads it from there. -/
theorem footer_handles_back_to_back (mo ms io isz : Nat)
    (h1 : mo < 2 ^ 64) (h2 : ms < 2 ^ 64) (h3 : io < 2 ^ 64) (h4 : isz < 2 ^ 64) :
    (Footer.encoded (Footer.new ⟨mo, ms⟩ ⟨io, isz⟩)).take 40 =
      listResize (BlockHandle.encoded ⟨mo, ms⟩ ++ BlockHandle.encoded ⟨io, isz⟩) 40 ∧
    BlockHandle.decode_from
        ((Footer.encoded (Footer.new ⟨mo, ms⟩ ⟨io, isz⟩)).drop
          (BlockHandle.encoded ⟨mo, ms⟩).length) =
      .ok (⟨io, isz⟩, (BlockHandle.encoded ⟨io, isz⟩).length) := by
  constructor
  · exact footer_encoded_take40 (Footer.new ⟨mo, ms⟩ ⟨io, isz⟩)
  · have la := put_varint_le_10 mo h1
    have lb := put_varint_le_10 ms h2
    have lc := put_varint_le_10 io h3
    have ld := put_varint_le_10 isz h4
    have hbody : (Footer.new ⟨mo, ms⟩ ⟨io, isz⟩).meta_index_handle.encoded ++
        (Footer.new ⟨mo, ms⟩ ⟨io, isz⟩).index_handle.encoded =
        (VarintU64.put_varint mo ++ VarintU64.put_varint ms) ++
          (VarintU64.put_varint io ++ (VarintU64.put_varint isz ++ [])) := by
      simp [Footer.new, BlockHandle.encoded, BlockHandle.encoded_to]
    have hlenbody : ((VarintU64.put_varint mo ++ VarintU64.put_varint ms) ++
        (VarintU64.put_varint io ++ (VarintU64.put_varint isz ++ []))).length ≤ 40 := by
      simp only [List.length_append, List.length_nil]
      omega
    have hE : Footer.encoded (Footer.new ⟨mo, ms⟩ ⟨io, isz⟩) =
        (VarintU64.put_varint mo ++ VarintU64.put_varint ms) ++
          (VarintU64.put_varint io ++ (VarintU64.put_varint isz ++
            (List.replicate (40 - ((VarintU64.put_varint mo ++ VarintU64.put_varint ms) ++
              (VarintU64.put_varint io ++ (VarintU64.put_varint isz ++ []))).length) 0 ++
              magicBytes))) := by
      rw [footer_encoded_split, hbody, listResize_of_le _ _ hlenbody]
      simp [List.append_assoc]
    have hdrop : (Footer.encoded (Footer.new ⟨mo, ms⟩ ⟨io, isz⟩)).drop
        (BlockHandle.encoded ⟨mo, ms⟩).length =
        VarintU64.put_varint io ++ (VarintU64.put_varint isz ++
          (List.replicate (40 - ((VarintU64.put_varint mo ++ VarintU64.put_varint ms) ++
            (VarintU64.put_varint io ++ (VarintU64.put_varint isz ++ []))).length) 0 ++
            magicBytes)) := by
      rw [hE]
      exact drop_length_append _ _ _
        (by simp [BlockHandle.encoded, BlockHandle.encoded_to])
    rw [hdrop]
    have := blockhandle_decode_front io isz
      (List.replicate (40 - ((VarintU64.put_varint mo ++ VarintU64.put_varint ms) ++
        (VarintU64.put_varint io ++ (VarintU64.put_varint isz ++ []))).length) 0 ++
        magicBytes) h3 h4
    rw [this]
    simp [BlockHandle.encoded, BlockHandle.encoded_to, BlockHandle.new, Nat.add_comm]

/-- Witness for the amended C4 at concrete handles. -/
theorem footer_handles_back_to_back_witness :
    BlockHandle.decode_from
        ((Footer.encoded (Footer.new (BlockHandle.new 0 0) (BlockHandle.new 1 2))).drop
          (BlockHandle.encoded (BlockHandle.new 0 0)).length) =
      .ok (BlockHandle.new 1 2, (BlockHandle.encoded (BlockHandle.new 1 2)).length) :=
  (footer_handles_back_to_back 0 0 1 2 (by norm_num) (by norm_num) (by norm_num)
    (by norm_num)).2

/-- Claim C8: `Footer::decode_from` reads the 8-byte magic field at bytes
40..48 before anything else, so any input shorter than the 48-byte footer is
outside its domain (a panic, modelled as `none`), and any input of at least
48 bytes produces a result. -/
theorem footer_decode_requires_full_footer :
    (∀ src : List Nat, src.length < FOOTER_ENCODED_LENGTH →
      Footer.decode_from src = none) ∧
    (∀ src : List Nat, FOOTER_ENCODED_LENGTH ≤ src.length →
      Footer.decode_from src ≠ none) := by
  constructor
  · intro src h
    unfold Footer.decode_from
    rw [if_pos h]
  · intro src h
    unfold Footer.decode_from
    rw [if_neg (by omega)]
    by_cases hm : decode_fixed_64 (src.drop (FOOTER_ENCODED_LENGTH - 8)) ≠ TABLE_MAGIC_NUMBER
    · rw [if_pos hm]
      simp
    · rw [if_neg hm]
      rcases hd1 : BlockHandle.decode_from src with e | p
      · simp [hd1]
      · obtain ⟨hmeta, n⟩ := p
        rcases hd2 : BlockHandle.decode_from (src.drop n) with e | p2
        · simp [hd1, hd2]
        · obtain ⟨hidx, m⟩ := p2
          simp [hd1, hd2]

/-- Witness for C8: the empty input panics; a 48-byte zero input does not. -/
theorem footer_decode_requires_full_footer_witness :
    Footer.decode_from [] = none ∧
      Footer.decode_from (List.replicate 48 0) ≠ none :=
  ⟨footer_decode_requires_full_footer.1 [] (by decide),
    footer_decode_requires_full_footer.2 (List.replicate 48 0) (by decide)⟩

/-- `File::read_exact_at` (`src/storage/mod.rs`), with the underlying
`read_at` calls modelled as a script: `responses` lists, in order, the result
each successive `read_at` call returns (`.ok k` = `k` bytes were read,
`.error e` = that error).  `n` is the remaining buffer length and `offset`
the current file offset.  `none` models behavior outside the function's
domain: a script too short for the loop, or a `read_at` result larger than
the remaining buffer (the `&mut tmp[n..]` slice would panic). -/
def read_exact_at : List (Except Error Nat) → Nat → Nat → Option (Except Error Unit)
  | _, 0, _ => some (.ok ())
  | [], _ + 1, _ => none
  | .ok 0 :: _, _ + 1, _ =>
    some (.error (.ioError .unexpectedEof "failed to fill whole buffer"))
  | .ok (k + 1) :: rs, n + 1, offset =>
    if k + 1 ≤ n + 1 then read_exact_at rs (n + 1 - (k + 1)) (offset + (k + 1))
    else none
  | .error (.ioError .interrupted _) :: rs, n + 1, offset =>
    read_exact_at rs (n + 1) offset
  | .error e :: _, _ + 1, _ => some (.error e)

/-- The reads of a script fill a buffer of length `n`: ignoring retried
`Interrupted` errors, the successive positive reads cover the buffer exactly,
with no end-of-file (0-byte read), no other error, and no over-long read
before it is full. -/
inductive FillsBuffer : List (Except Error Nat) → Nat → Prop where
  | nil : ∀ rs, FillsBuffer rs 0
  | readSome : ∀ (k : Nat) rs n, 0 < k → k ≤ n → FillsBuffer rs (n - k) →
      FillsBuffer (.ok k :: rs) n
  | retryInterrupted : ∀ msg rs n, FillsBuffer rs n →
      FillsBuffer (.error (.ioError .interrupted msg) :: rs) n

lemma read_exact_at_ok_iff : ∀ (rs : List (Except Error Nat)) (n offset : Nat),
    read_exact_at rs n offset = some (.ok ()) ↔ FillsBuffer rs n := by
  intro rs
  induction rs with
  | nil =>
    intro n offset
    cases n with
    | zero => simp [read_exact_at]; exact FillsBuffer.nil []
    | succ m =>
      simp only [read_exact_at]
      constructor
      · intro h; cases h
      · intro h; cases h
  | cons r rs ih =>
    intro n offset
    cases n with
    | zero => simp [read_exact_at]; exact FillsBuffer.nil _
    | succ m =>
      match r with
      | .ok 0 =>
        simp only [read_exact_at]
        constructor
        · intro h; cases h
        · intro h; cases h; omega
      | .ok (k + 1) =>
        simp only [read_exact_at]
        by_cases hk : k + 1 ≤ m + 1
        · rw [if_pos hk]
          rw [ih (m + 1 - (k + 1)) (offset + (k + 1))]
          constructor
          · intro h; exact FillsBuffer.readSome (k + 1) rs (m + 1) (by omega) hk h
          · intro h; cases h; assumption
        · rw [if_neg hk]
          constructor
          · intro h; cases h
          · intro h; cases h; omega
      | .error (.ioError .interrupted msg) =>
        simp only [read_exact_at]
        rw [ih (m + 1) offset]
        constructor
        · intro h; exact FillsBuffer.retryInterrupted msg rs (m + 1) h
        · intro h; cases h; assumption
      | .error (.ioError .unexpectedEof msg) =>
        simp only [read_exact_at]
        constructor
        · intro h; cases h
        · intro h; cases h
      | .error (.ioError (.otherKind j) msg) =>
        simp only [read_exact_at]
        constructor
        · intro h; cases h
        · intro h; cases h
      | .error (.Corruption msg) =>
        simp only [read_exact_at]
        constructor
        · intro h; cases h
        · intro h; cases h
      | .error (.otherErr t) =>
        simp only [read_exact_at]
        constructor
        · intro h; cases h
        · intro h; cases h

/-- Claim C9: `read_exact_at` returns `Ok(())` exactly when the underlying
reads fill the whole buffer from the given offset; an `Interrupted` IO error
is retried; a 0-byte read with the buffer not yet full produces
`UnexpectedEof` with message "failed to fill whole buffer"; any other error
from `read_at` is propagated unchanged. -/
theorem read_exact_at_spec :
    (∀ rs n offset, read_exact_at rs n offset = some (.ok ()) ↔ FillsBuffer rs n) ∧
    (∀ msg rs n offset, 0 < n →
      read_exact_at (.error (.ioError .interrupted msg) :: rs) n offset =
        read_exact_at rs n offset) ∧
    (∀ rs n offset, 0 < n →
      read_exact_at (.ok 0 :: rs) n offset =
        some (.error (.ioError .unexpectedEof "failed to fill whole buffer"))) ∧
    (∀ e rs n offset, 0 < n → (∀ msg, e ≠ .ioError .interrupted msg) →
      read_exact_at (.error e :: rs) n offset = some (.error e)) := by
  refine ⟨read_exact_at_ok_iff, ?_, ?_, ?_⟩
  · intro msg rs n offset hn
    cases n with
    | zero => omega
    | succ m => simp [read_exact_at]
  · intro rs n offset hn
    cases n with
    | zero => omega
    | succ m => simp [read_exact_at]
  · intro e rs n offset hn hni
    cases n with
    | zero => omega
    | succ m =>
      match e with
      | .Corruption msg => simp [read_exact_at]
      | .ioError .interrupted msg => exact absurd rfl (hni msg)
      | .ioError .unexpectedEof msg => simp [read_exact_at]
      | .ioError (.otherKind j) msg => simp [read_exact_at]
      | .otherErr t => simp [read_exact_at]

/-- Witness for C9: a filled buffer, a retried interruption, an early EOF,
and a propagated error, each at concrete inputs. -/
theorem read_exact_at_spec_witness :
    read_exact_at [.ok 1, .ok 1] 2 0 = some (.ok ()) ∧
    read_exact_at [.error (.ioError .interrupted "x"), .ok 2] 2 7 =
      read_exact_at [.ok 2] 2 7 ∧
    read_exact_at [.ok 0] 3 0 =
      some (.error (.ioError .unexpectedEof "failed to fill whole buffer")) ∧
    read_exact_at [.error (.Corruption "boom")] 3 0 =
      some (.error (.Corruption "boom")) :=
  ⟨(read_exact_at_spec.1 [.ok 1, .ok 1] 2 0).mpr
      (FillsBuffer.readSome 1 [.ok 1] 2 (by omega) (by omega)
        (FillsBuffer.readSome 1 [] 1 (by omega) (by omega) (FillsBuffer.nil []))),
    read_exact_at_spec.2.1 "x" [.ok 2] 2 7 (by omega),
    read_exact_at_spec.2.2.1 [.ok 0] 3 0 (by omega),
    read_exact_at_spec.2.2.2 (.Corruption "boom") [] 3 0 (by omega)
      (fun _ h => Error.noConfusion h)⟩

/-- `FileType` (`src/db/filename.rs`). -/
inductive FileType where
  | Log
  | Lock
  | Table
  | Manifest
  | Current
  | Temp
  | InfoLog
  | OldInfoLog
deriving DecidableEq

/-- Rust `Path::join` on Unix: append a separator (unless the directory is
empty or already ends with one) and then the file name. -/
def pathJoin (dir name : List Char) : List Char :=
  if dir = [] then name
  else if dir.getLast? = some '/' then dir ++ name
  else dir ++ '/' :: name

/-- Rust `Path::file_name` (as a plain string): the characters after the
last separator. -/
def fileName (p : List Char) : List Char :=
  (p.reverse.takeWhile (fun c => decide (c ≠ '/'))).reverse

/-- Split a file name at its last dot: the characters before it and after
it (used by Rust's `file_stem`/`extension`). -/
def lastDotSplit (f : List Char) : List Char × List Char :=
  (((f.reverse.dropWhile (fun c => decide (c ≠ '.'))).drop 1).reverse,
    (f.reverse.takeWhile (fun c => decide (c ≠ '.'))).reverse)

/-- Rust `Path::file_stem`: the file name up to its last dot; a name with no
dot, the name `..`, and a name whose only dot is leading are their own
stem. -/
def fileStem (p : List Char) : Option (List Char) :=
  let f := fileName p
  if f = [] then none
  else if f = ['.', '.'] then some f
  else if '.' ∈ f then
    if (lastDotSplit f).1 = [] then some f else some (lastDotSplit f).1
  else some f

/-- Rust `Path::extension`: the file name after its last dot, when the stem
is proper. -/
def extension (p : List Char) : Option (List Char) :=
  let f := fileName p
  if f = [] then none
  else if f = ['.', '.'] then none
  else if '.' ∈ f then
    if (lastDotSplit f).1 = [] then none else some (lastDotSplit f).2
  else none

def digitChar : Nat → Char
  | 0 => '0'
  | 1 => '1'
  | 2 => '2'
  | 3 => '3'
  | 4 => '4'
  | 5 => '5'
  | 6 => '6'
  | 7 => '7'
  | 8 => '8'
  | 9 => '9'
  | _ => '*'

/-- Decimal digits of `n`, most significant first, computed with fuel
(`n + 1` always suffices) so the definition reduces by `decide`. -/
def natDigitsAux : Nat → Nat → List Char
  | _, 0 => []
  | n, fuel + 1 =>
    if n < 10 then [digitChar n]
    else natDigitsAux (n / 10) fuel ++ [digitChar (n % 10)]

/-- Rust's `{}` formatting of an unsigned integer. -/
def natDecimal (n : Nat) : List Char := natDigitsAux n (n + 1)

/-- Rust's `{:06}` formatting: decimal digits left-padded with zeros to at
least 6 characters. -/
def pad6 (n : Nat) : List Char :=
  List.replicate (6 - (natDecimal n).length) '0' ++ natDecimal n

/-- Rust's `str::parse::<u64>`: an optional leading plus sign, then one or
more ASCII digits; values past `u64::MAX` overflow and are rejected. -/
def parseU64 (s : List Char) : Option Nat :=
  let t := if s.head? = some '+' then s.tail else s
  if t = [] then none
  else if t.all Char.isDigit then
    let n := t.foldl (fun a c => a * 10 + (c.toNat - 48)) 0
    if n < 2 ^ 64 then some n else none
  else none

/-- Rust's `str::split('-')` collected into a vector. -/
def splitOnDash : List Char → List (List Char)
  | [] => [[]]
  | c :: rest =>
    if c = '-' then [] :: splitOnDash rest
    else
      match splitOnDash rest with
      | [] => [[c]]
      | h :: t => (c :: h) :: t

/-- Rust's `str::starts_with("MANIFEST")`. -/
def startsWithManifest (s : List Char) : Bool :=
  decide (s.take 8 = ['M', 'A', 'N', 'I', 'F', 'E', 'S', 'T'])

/-- `generate_filename` (`src/db/filename.rs`): join `dirname` with the
name determined by the file type and sequence number. -/
def generate_filename (dirname : List Char) (filetype : FileType) (seq : Nat) :
    List Char :=
  match filetype with
  | .Log => pathJoin dirname (pad6 seq ++ ['.', 'l', 'o', 'g'])
  | .Lock => pathJoin dirname ['L', 'O', 'C', 'K']
  | .Table => pathJoin dirname (pad6 seq ++ ['.', 's', 's', 't'])
  | .Manifest =>
    pathJoin dirname (['M', 'A', 'N', 'I', 'F', 'E', 'S', 'T', '-'] ++ pad6 seq)
  | .Current => pathJoin dirname ['C', 'U', 'R', 'R', 'E', 'N', 'T']
  | .Temp => pathJoin dirname (pad6 seq ++ ['.', 'd', 'b', 't', 'm', 'p'])
  | .InfoLog => pathJoin dirname ['L', 'O', 'G']
  | .OldInfoLog => pathJoin dirname ['L', 'O', 'G', '.', 'o', 'l', 'd']

def invalidStr : List Char := ['i', 'n', 'v', 'a', 'l', 'i', 'd']

/-- `parse_filename` (`src/db/filename.rs`): recover the file type and
sequence number from a path, matching on the file stem (with `"invalid"`
substituted when there is none), the full file name for `LOG`/`LOG.old`,
the `MANIFEST-` dash split, and otherwise the stem as a number plus the
extension. -/
def parse_filename (filename : List Char) : Option (FileType × Nat) :=
  let file_stem := (fileStem filename).getD invalidStr
  if file_stem = ['C', 'U', 'R', 'R', 'E', 'N', 'T'] then some (.Current, 0)
  else if file_stem = ['L', 'O', 'C', 'K'] then some (.Lock, 0)
  else if file_stem = ['L', 'O', 'G'] then
    if fileName filename = ['L', 'O', 'G'] then some (.InfoLog, 0)
    else if fileName filename = ['L', 'O', 'G', '.', 'o', 'l', 'd'] then
      some (.OldInfoLog, 0)
    else none
  else if startsWithManifest file_stem then
    if (splitOnDash file_stem).length ≠ 2 then none
    else
      match parseU64 ((splitOnDash file_stem).getD 1 []) with
      | some seq => some (.Manifest, seq)
      | none => none
  else
    match parseU64 file_stem with
    | some seq =>
      if (extension filename).getD invalidStr = ['l', 'o', 'g'] then
        some (.Log, seq)
      else if (extension filename).getD invalidStr = ['s', 's', 't'] then
        some (.Table, seq)
      else if (extension filename).getD invalidStr = ['d', 'b', 't', 'm', 'p'] then
        some (.Temp, seq)
      else none
    | none => none

/-- The sequence number `parse_filename` reports for each file type:
`Lock`, `Current`, `InfoLog` and `OldInfoLog` names carry none, so 0. -/
def expectedSeq (filetype : FileType) (seq : Nat) : Nat :=
  match filetype with
  | .Log => seq
  | .Table => seq
  | .Manifest => seq
  | .Temp => seq
  | _ => 0

example : generate_filename ['t', 'e', 's', 't'] .Log 10 =
    ['t', 'e', 's', 't', '/', '0', '0', '0', '0', '1', '0', '.', 'l', 'o', 'g'] := by
  decide
example : parse_filename (generate_filename ['t', 'e', 's', 't'] .Log 10) =
    some (.Log, 10) := by decide
example : parse_filename (generate_filename ['a', '/', 'b'] .Table 10666) =
    some (.Table, 10666) := by decide
example : parse_filename (generate_filename [] .Manifest 9) =
    some (.Manifest, 9) := by decide
example : parse_filename (generate_filename ['t'] .Temp 123) =
    some (.Temp, 123) := by decide
example : parse_filename (generate_filename ['t'] .Lock 1) = some (.Lock, 0) := by decide
example : parse_filename (generate_filename ['t'] .Current 1) =
    some (.Current, 0) := by decide
example : parse_filename (generate_filename ['t'] .InfoLog 1) =
    some (.InfoLog, 0) := by decide
example : parse_filename (generate_filename ['t', '/'] .OldInfoLog 1) =
    some (.OldInfoLog, 0) := by decide

lemma takeWhile_all {α : Type} (p : α → Bool) :
    ∀ l : List α, (∀ c ∈ l, p c = true) → l.takeWhile p = l := by
  intro l h
  induction l with
  | nil => rfl
  | cons a t ih =>
    rw [List.takeWhile_cons, if_pos (h a (List.mem_cons_self a t))]
    rw [ih (fun c hc => h c (List.mem_cons_of_mem a hc))]

lemma takeWhile_append_all {α : Type} (p : α → Bool) (l r : List α)
    (h : ∀ c ∈ l, p c = true) :
    (l ++ r).takeWhile p = l ++ r.takeWhile p := by
  induction l with
  | nil => simp
  | cons a t ih =>
    rw [List.cons_append, List.takeWhile_cons, if_pos (h a (List.mem_cons_self a t)),
      ih (fun c hc => h c (List.mem_cons_of_mem a hc)), List.cons_append]

lemma takeWhile_cons_neg {α : Type} (p : α → Bool) (a : α) (l : List α)
    (h : p a = false) : (a :: l).takeWhile p = [] := by
  rw [List.takeWhile_cons, if_neg (by simp [h])]

lemma dropWhile_append_all {α : Type} (p : α → Bool) (l r : List α)
    (h : ∀ c ∈ l, p c = true) :
    (l ++ r).dropWhile p = r.dropWhile p := by
  induction l with
  | nil => simp
  | cons a t ih =>
    rw [List.cons_append, List.dropWhile_cons, if_pos (h a (List.mem_cons_self a t)),
      ih (fun c hc => h c (List.mem_cons_of_mem a hc))]

lemma dropWhile_cons_neg {α : Type} (p : α → Bool) (a : α) (l : List α)
    (h : p a = false) : (a :: l).dropWhile p = a :: l := by
  rw [List.dropWhile_cons, if_neg (by simp [h])]

/-- The last path component of a joined path is the joined file name, as
long as the file name has no separator. -/
lemma fileName_pathJoin (dir name : List Char) (hn : ∀ c ∈ name, c ≠ '/') :
    fileName (pathJoin dir name) = name := by
  have hall : ∀ c ∈ name.reverse, (fun c => decide (c ≠ '/')) c = true := by
    intro c hc
    rw [List.mem_reverse] at hc
    simp only [decide_eq_true_eq]
    exact hn c hc
  unfold pathJoin fileName
  by_cases h0 : dir = []
  · rw [if_pos h0, takeWhile_all _ _ hall, List.reverse_reverse]
  · rw [if_neg h0]
    by_cases h1 : dir.getLast? = some '/'
    · rw [if_pos h1, List.reverse_append, takeWhile_append_all _ _ _ hall]
      have hrev : dir.reverse.head? = some '/' := by
        rw [List.head?_reverse]; exact h1
      rcases hd : dir.reverse with _ | ⟨c, t⟩
      · rw [hd] at hrev; simp at hrev
      · rw [hd] at hrev
        simp only [List.head?] at hrev
        injection hrev with hc
        rw [takeWhile_cons_neg _ c t (by subst hc; decide)]
        rw [List.append_nil, List.reverse_reverse]
    · rw [if_neg h1]
      have hsplit : dir ++ '/' :: name = (dir ++ ['/']) ++ name := by simp
      rw [hsplit, List.reverse_append, takeWhile_append_all _ _ _ hall]
      have hrev2 : (dir ++ ['/']).reverse = '/' :: dir.reverse := by simp
      rw [hrev2, takeWhile_cons_neg _ _ _ (by decide), List.append_nil,
        List.reverse_reverse]

lemma lastDotSplit_eq (a b : List Char) (hda : '.' ∉ a) (hdb : '.' ∉ b) :
    lastDotSplit (a ++ '.' :: b) = (a, b) := by
  have hb : ∀ c ∈ b.reverse, (fun c => decide (c ≠ '.')) c = true := by
    intro c hc
    rw [List.mem_reverse] at hc
    simp only [decide_eq_true_eq]
    intro he
    exact hdb (he ▸ hc)
  have hrev : (a ++ '.' :: b).reverse = b.reverse ++ '.' :: a.reverse := by simp
  unfold lastDotSplit
  rw [hrev, Prod.mk.injEq]
  constructor
  · rw [dropWhile_append_all _ _ _ hb, dropWhile_cons_neg _ _ _ (by decide)]
    rw [List.drop_one, List.tail_cons, List.reverse_reverse]
  · rw [takeWhile_append_all _ _ _ hb, takeWhile_cons_neg _ _ _ (by decide)]
    rw [List.append_nil, List.reverse_reverse]

/-- `fileStem`/`extension` of a path whose file name splits at a single last
dot. -/
lemma stem_ext_split (p : List Char) (a b : List Char) (ha : a ≠ [])
    (hda : '.' ∉ a) (hdb : '.' ∉ b) (hf : fileName p = a ++ '.' :: b) :
    fileStem p = some a ∧ extension p = some b := by
  have hne : a ++ '.' :: b ≠ [] := by simp
  have hdots : a ++ '.' :: b ≠ ['.', '.'] := by
    intro h
    cases a with
    | nil => exact ha rfl
    | cons c t =>
      rw [List.cons_append] at h
      injection h with h1 _
      exact hda (by rw [← h1] at *; exact List.mem_cons_self c t)
  have hmem : '.' ∈ a ++ '.' :: b := by simp
  constructor
  · simp only [fileStem, hf]
    rw [if_neg hne, if_neg hdots, if_pos hmem, lastDotSplit_eq a b hda hdb]
    simp [ha]
  · simp only [extension, hf]
    rw [if_neg hne, if_neg hdots, if_pos hmem, lastDotSplit_eq a b hda hdb]
    simp [ha]

/-- `fileStem`/`extension` of a path whose file name has no dot. -/
lemma stem_ext_nodot (p : List Char) (f : List Char) (hne : f ≠ [])
    (hd : '.' ∉ f) (hf : fileName p = f) :
    fileStem p = some f ∧ extension p = none := by
  have hdots : f ≠ ['.', '.'] := by
    intro h
    apply hd
    rw [h]
    simp
  constructor
  · simp only [fileStem, hf]
    rw [if_neg hne, if_neg hdots, if_neg hd]
  · simp only [extension, hf]
    rw [if_neg hne, if_neg hdots, if_neg hd]

lemma digitChar_isDigit (k : Nat) (h : k < 10) : (digitChar k).isDigit = true := by
  interval_cases k <;> decide

lemma digitChar_toNat (k : Nat) (h : k < 10) : (digitChar k).toNat - 48 = k := by
  interval_cases k <;> decide

lemma natDigitsAux_congr : ∀ f1 n f2 : Nat, n < f1 → n < f2 →
    natDigitsAux n f1 = natDigitsAux n f2 := by
  intro f1
  induction f1 with
  | zero => intro n f2 h1 _; omega
  | succ f ih =>
    intro n f2 h1 h2
    cases f2 with
    | zero => omega
    | succ g =>
      by_cases hn : n < 10
      · simp [natDigitsAux, hn]
      · have hd : n / 10 < n := Nat.div_lt_self (by omega) (by omega)
        simp only [natDigitsAux, if_neg hn]
        rw [ih (n / 10) g (by omega) (by omega)]

/-- One-step unfolding of `natDecimal`, hiding the fuel. -/
lemma natDecimal_eq (n : Nat) :
    natDecimal n = if n < 10 then [digitChar n]
      else natDecimal (n / 10) ++ [digitChar (n % 10)] := by
  unfold natDecimal
  conv_lhs => rw [natDigitsAux]
  by_cases hn : n < 10
  · rw [if_pos hn, if_pos hn]
  · have hd : n / 10 < n := Nat.div_lt_self (by omega) (by omega)
    rw [if_neg hn, if_neg hn]
    congr 1
    exact natDigitsAux_congr n (n / 10) (n / 10 + 1) (by omega) (by omega)

lemma natDecimal_ne_nil (n : Nat) : natDecimal n ≠ [] := by
  induction n using Nat.strong_induction_on with
  | _ n ih =>
    rw [natDecimal_eq]
    by_cases h : n < 10
    · simp [h]
    · simp [if_neg h]

lemma natDecimal_digits (n : Nat) : ∀ c ∈ natDecimal n, c.isDigit = true := by
  induction n using Nat.strong_induction_on with
  | _ n ih =>
    rw [natDecimal_eq]
    by_cases h : n < 10
    · simp only [if_pos h, List.mem_singleton]
      intro c hc
      rw [hc]
      exact digitChar_isDigit n h
    · simp only [if_neg h]
      intro c hc
      rcases List.mem_append.1 hc with h1 | h2
      · exact ih (n / 10) (Nat.div_lt_self (by omega) (by omega)) c h1
      · rw [List.mem_singleton] at h2
        rw [h2]
        exact digitChar_isDigit (n % 10) (by omega)

lemma natDecimal_val_aux (n : Nat) : ∀ a : Nat,
    (natDecimal n).foldl (fun a c => a * 10 + (c.toNat - 48)) a =
      a * 10 ^ (natDecimal n).length + n := by
  induction n using Nat.strong_induction_on with
  | _ n ih =>
    intro a
    rw [natDecimal_eq]
    by_cases h : n < 10
    · simp only [if_pos h, List.foldl_cons, List.foldl_nil, List.length_cons,
        List.length_nil, Nat.zero_add]
      rw [digitChar_toNat n h, pow_one]
    · have hd : n / 10 < n := Nat.div_lt_self (by omega) (by omega)
      simp only [if_neg h, List.foldl_append, List.foldl_cons, List.foldl_nil,
        List.length_append, List.length_cons, List.length_nil, Nat.zero_add]
      rw [ih (n / 10) hd a, digitChar_toNat (n % 10) (by omega)]
      have hmod := Nat.div_add_mod n 10
      have hstep : (a * 10 ^ (natDecimal (n / 10)).length + n / 10) * 10 + n % 10 =
          a * (10 ^ (natDecimal (n / 10)).length * 10) + (10 * (n / 10) + n % 10) := by
        ring
      rw [hstep, hmod, ← pow_succ]

lemma natDecimal_val (n : Nat) :
    (natDecimal n).foldl (fun a c => a * 10 + (c.toNat - 48)) 0 = n := by
  rw [natDecimal_val_aux n 0]
  simp

lemma foldl_replicate_zero (k : Nat) :
    (List.replicate k '0').foldl (fun a c => a * 10 + (c.toNat - 48)) 0 = 0 := by
  induction k with
  | zero => rfl
  | succ m ih =>
    rw [List.replicate_succ, List.foldl_cons]
    have : (0 : Nat) * 10 + ('0'.toNat - 48) = 0 := by decide
    rw [this, ih]

lemma pad6_all_digits (seq : Nat) : ∀ c ∈ pad6 seq, c.isDigit = true := by
  intro c hc
  rcases List.mem_append.1 hc with h1 | h2
  · rw [List.eq_of_mem_replicate h1]
    decide
  · exact natDecimal_digits seq c h2

lemma pad6_ne_nil (seq : Nat) : pad6 seq ≠ [] := by
  unfold pad6
  intro h
  rw [List.append_eq_nil] at h
  exact natDecimal_ne_nil seq h.2

lemma isDigit_not_special (c : Char) (h : c.isDigit = true) :
    c ≠ '/' ∧ c ≠ '.' ∧ c ≠ '-' ∧ c ≠ '+' := by
  refine ⟨?_, ?_, ?_, ?_⟩ <;> (intro he; subst he; exact absurd h (by decide))

lemma digits_ne_of_bad (l : List Char) (hl : ∀ c ∈ l, c.isDigit = true)
    (m : List Char) (c : Char) (hc : c ∈ m) (hcd : c.isDigit = false) : l ≠ m := by
  intro h
  subst h
  exact absurd (hl c hc) (by simp [hcd])

/-- `parseU64` inverts `{:06}` formatting for every `u64`. -/
lemma parseU64_pad6 (seq : Nat) (h : seq < 2 ^ 64) : parseU64 (pad6 seq) = some seq := by
  have hall := pad6_all_digits seq
  have hne := pad6_ne_nil seq
  have hplus : (pad6 seq).head? ≠ some '+' := by
    rcases hp : pad6 seq with _ | ⟨c, t⟩
    · simp
    · simp only [List.head?, ne_eq, Option.some.injEq]
      intro he
      have hcd : c.isDigit = true := by
        apply hall
        rw [hp]
        exact List.mem_cons_self c t
      exact (isDigit_not_special c hcd).2.2.2 he
  unfold parseU64
  rw [if_neg hplus, if_neg hne,
    if_pos (by rw [List.all_eq_true]; exact hall)]
  have hval : (pad6 seq).foldl (fun a c => a * 10 + (c.toNat - 48)) 0 = seq := by
    unfold pad6
    rw [List.foldl_append, foldl_replicate_zero, natDecimal_val]
  rw [hval, if_pos h]

lemma take_eq_cons {α : Type} (l : List α) (n : Nat) (c : α) (r : List α)
    (h : l.take n = c :: r) : l.head? = some c := by
  cases l with
  | nil => rw [List.take_nil] at h; cases h
  | cons a t =>
    cases n with
    | zero => rw [List.take_zero] at h; cases h
    | succ m =>
      rw [List.take_succ_cons] at h
      injection h with h1 _
      rw [h1]
      rfl

lemma startsWithManifest_digits (l : List Char) (hl : ∀ c ∈ l, c.isDigit = true) :
    startsWithManifest l = false := by
  unfold startsWithManifest
  apply decide_eq_false
  intro h
  have hh := take_eq_cons l 8 'M' _ h
  cases l with
  | nil => cases hh
  | cons c t =>
    simp only [List.head?, Option.some.injEq] at hh
    exact absurd (hl c (List.mem_cons_self c t)) (by rw [hh]; decide)

lemma startsWithManifest_le (r : List Char) :
    startsWithManifest (['M', 'A', 'N', 'I', 'F', 'E', 'S', 'T'] ++ r) = true := by
  unfold startsWithManifest
  rw [take_length_append _ _ 8 (by decide)]
  decide

lemma splitOnDash_nodash (l : List Char) (h : '-' ∉ l) : splitOnDash l = [l] := by
  induction l with
  | nil => rfl
  | cons c t ih =>
    have hc : ¬ c = '-' := fun he => h (by rw [← he] at *; exact List.mem_cons_self c t)
    simp only [splitOnDash, if_neg hc]
    rw [ih (fun hm => h (List.mem_cons_of_mem c hm))]

lemma splitOnDash_append (a b : List Char) (ha : '-' ∉ a) :
    splitOnDash (a ++ '-' :: b) = a :: splitOnDash b := by
  induction a with
  | nil =>
    simp [splitOnDash]
  | cons c t ih =>
    have hc : ¬ c = '-' := fun he => ha (by rw [← he] at *; exact List.mem_cons_self c t)
    rw [List.cons_append]
    simp only [splitOnDash, if_neg hc]
    rw [ih (fun hm => ha (List.mem_cons_of_mem c hm))]

/-- `parse_filename` on a path whose stem is a numeric string and whose
extension decides the file type. -/
lemma parse_numeric (filename d ext : List Char) (seq : Nat)
    (hstem : fileStem filename = some d)
    (hext : extension filename = some ext)
    (hd : ∀ c ∈ d, c.isDigit = true)
    (hp : parseU64 d = some seq) :
    parse_filename filename =
      if ext = ['l', 'o', 'g'] then some (.Log, seq)
      else if ext = ['s', 's', 't'] then some (.Table, seq)
      else if ext = ['d', 'b', 't', 'm', 'p'] then some (.Temp, seq)
      else none := by
  simp only [parse_filename, hstem, Option.getD_some]
  rw [if_neg (digits_ne_of_bad d hd ['C', 'U', 'R', 'R', 'E', 'N', 'T'] 'C'
      (by decide) (by decide)),
    if_neg (digits_ne_of_bad d hd ['L', 'O', 'C', 'K'] 'L' (by decide) (by decide)),
    if_neg (digits_ne_of_bad d hd ['L', 'O', 'G'] 'L' (by decide) (by decide)),
    startsWithManifest_digits d hd]
  simp only [Bool.false_eq_true, if_false, hp, hext, Option.getD_some]

/-- Claim C10: parsing a generated filename recovers the file type together
with the sequence number for `Log`, `Table`, `Manifest` and `Temp`, and 0
for the types whose names carry no sequence number. -/
theorem parse_generate_roundtrip (dir : List Char) (filetype : FileType) (seq : Nat)
    (hseq : seq < 2 ^ 64) :
    parse_filename (generate_filename dir filetype seq) =
      some (filetype, expectedSeq filetype seq) := by
  have hdig := pad6_all_digits seq
  have hnd : '.' ∉ pad6 seq := fun hm => (isDigit_not_special _ (hdig _ hm)).2.1 rfl
  have hnsl : ∀ c ∈ pad6 seq, c ≠ '/' := fun c hm => (isDigit_not_special _ (hdig _ hm)).1
  have hndash : '-' ∉ pad6 seq := fun hm => (isDigit_not_special _ (hdig _ hm)).2.2.1 rfl
  cases filetype with
  | Log =>
    have hfn : fileName (pathJoin dir (pad6 seq ++ ['.', 'l', 'o', 'g'])) =
        pad6 seq ++ ['.', 'l', 'o', 'g'] := by
      apply fileName_pathJoin
      intro c hc
      rcases List.mem_append.1 hc with h1 | h2
      · exact hnsl c h1
      · intro he; subst he; exact absurd h2 (by decide)
    obtain ⟨hstem, hext⟩ := stem_ext_split _ (pad6 seq) ['l', 'o', 'g']
      (pad6_ne_nil seq) hnd (by decide) hfn
    show parse_filename (pathJoin dir (pad6 seq ++ ['.', 'l', 'o', 'g'])) = _
    rw [parse_numeric _ (pad6 seq) ['l', 'o', 'g'] seq hstem hext hdig
      (parseU64_pad6 seq hseq)]
    simp [expectedSeq]
  | Table =>
    have hfn : fileName (pathJoin dir (pad6 seq ++ ['.', 's', 's', 't'])) =
        pad6 seq ++ ['.', 's', 's', 't'] := by
      apply fileName_pathJoin
      intro c hc
      rcases List.mem_append.1 hc with h1 | h2
      · exact hnsl c h1
      · intro he; subst he; exact absurd h2 (by decide)
    obtain ⟨hstem, hext⟩ := stem_ext_split _ (pad6 seq) ['s', 's', 't']
      (pad6_ne_nil seq) hnd (by decide) hfn
    show parse_filename (pathJoin dir (pad6 seq ++ ['.', 's', 's', 't'])) = _
    rw [parse_numeric _ (pad6 seq) ['s', 's', 't'] seq hstem hext hdig
      (parseU64_pad6 seq hseq)]
    simp [expectedSeq]
  | Temp =>
    have hfn : fileName (pathJoin dir (pad6 seq ++ ['.', 'd', 'b', 't', 'm', 'p'])) =
        pad6 seq ++ ['.', 'd', 'b', 't', 'm', 'p'] := by
      apply fileName_pathJoin
      intro c hc
      rcases List.mem_append.1 hc with h1 | h2
      · exact hnsl c h1
      · intro he; subst he; exact absurd h2 (by decide)
    obtain ⟨hstem, hext⟩ := stem_ext_split _ (pad6 seq) ['d', 'b', 't', 'm', 'p']
      (pad6_ne_nil seq) hnd (by decide) hfn
    show parse_filename (pathJoin dir (pad6 seq ++ ['.', 'd', 'b', 't', 'm', 'p'])) = _
    rw [parse_numeric _ (pad6 seq) ['d', 'b', 't', 'm', 'p'] seq hstem hext hdig
      (parseU64_pad6 seq hseq)]
    simp [expectedSeq]
  | Manifest =>
    have hfn : fileName (pathJoin dir
        (['M', 'A', 'N', 'I', 'F', 'E', 'S', 'T', '-'] ++ pad6 seq)) =
        ['M', 'A', 'N', 'I', 'F', 'E', 'S', 'T', '-'] ++ pad6 seq := by
      apply fileName_pathJoin
      intro c hc
      rcases List.mem_append.1 hc with h1 | h2
      · intro he; subst he; exact absurd h1 (by decide)
      · exact hnsl c h2
    have hnodot : '.' ∉ ['M', 'A', 'N', 'I', 'F', 'E', 'S', 'T', '-'] ++ pad6 seq := by
      intro hm
      rcases List.mem_append.1 hm with h1 | h2
      · exact absurd h1 (by decide)
      · exact hnd h2
    obtain ⟨hstem, _⟩ := stem_ext_nodot _ _ (by simp) hnodot hfn
    have hassoc : ['M', 'A', 'N', 'I', 'F', 'E', 'S', 'T', '-'] ++ pad6 seq =
        ['M', 'A', 'N', 'I', 'F', 'E', 'S', 'T'] ++ ('-' :: pad6 seq) := by simp
    have hsw : startsWithManifest
        (['M', 'A', 'N', 'I', 'F', 'E', 'S', 'T', '-'] ++ pad6 seq) = true := by
      rw [hassoc]; exact startsWithManifest_le _
    have hsplitd : splitOnDash (['M', 'A', 'N', 'I', 'F', 'E', 'S', 'T', '-'] ++ pad6 seq) =
        [['M', 'A', 'N', 'I', 'F', 'E', 'S', 'T'], pad6 seq] := by
      rw [hassoc, splitOnDash_append _ _ (by decide), splitOnDash_nodash _ hndash]
    have hne1 : ['M', 'A', 'N', 'I', 'F', 'E', 'S', 'T', '-'] ++ pad6 seq ≠
        ['C', 'U', 'R', 'R', 'E', 'N', 'T'] := by
      intro h
      rw [List.cons_append] at h
      injection h with h1 _
      exact absurd h1 (by decide)
    have hne2 : ['M', 'A', 'N', 'I', 'F', 'E', 'S', 'T', '-'] ++ pad6 seq ≠
        ['L', 'O', 'C', 'K'] := by
      intro h
      rw [List.cons_append] at h
      injection h with h1 _
      exact absurd h1 (by decide)
    have hne3 : ['M', 'A', 'N', 'I', 'F', 'E', 'S', 'T', '-'] ++ pad6 seq ≠
        ['L', 'O', 'G'] := by
      intro h
      rw [List.cons_append] at h
      injection h with h1 _
      exact absurd h1 (by decide)
    show parse_filename (pathJoin dir
      (['M', 'A', 'N', 'I', 'F', 'E', 'S', 'T', '-'] ++ pad6 seq)) = _
    simp only [parse_filename, hstem, Option.getD_some]
    rw [if_neg hne1, if_neg hne2, if_neg hne3, hsw, hsplitd]
    simp [parseU64_pad6 seq hseq, expectedSeq]
  | Lock =>
    have hfn : fileName (pathJoin dir ['L', 'O', 'C', 'K']) = ['L', 'O', 'C', 'K'] := by
      apply fileName_pathJoin
      intro c hc he
      subst he
      exact absurd hc (by decide)
    obtain ⟨hstem, _⟩ := stem_ext_nodot _ _ (by decide) (by decide) hfn
    show parse_filename (pathJoin dir ['L', 'O', 'C', 'K']) = _
    simp only [parse_filename, hstem, Option.getD_some]
    simp [expectedSeq]
  | Current =>
    have hfn : fileName (pathJoin dir ['C', 'U', 'R', 'R', 'E', 'N', 'T']) =
        ['C', 'U', 'R', 'R', 'E', 'N', 'T'] := by
      apply fileName_pathJoin
      intro c hc he
      subst he
      exact absurd hc (by decide)
    obtain ⟨hstem, _⟩ := stem_ext_nodot _ _ (by decide) (by decide) hfn
    show parse_filename (pathJoin dir ['C', 'U', 'R', 'R', 'E', 'N', 'T']) = _
    simp only [parse_filename, hstem, Option.getD_some]
    simp [expectedSeq]
  | InfoLog =>
    have hfn : fileName (pathJoin dir ['L', 'O', 'G']) = ['L', 'O', 'G'] := by
      apply fileName_pathJoin
      intro c hc he
      subst he
      exact absurd hc (by decide)
    obtain ⟨hstem, _⟩ := stem_ext_nodot _ _ (by decide) (by decide) hfn
    show parse_filename (pathJoin dir ['L', 'O', 'G']) = _
    simp only [parse_filename, hstem, Option.getD_some]
    simp [hfn, expectedSeq]
  | OldInfoLog =>
    have hfn : fileName (pathJoin dir ['L', 'O', 'G', '.', 'o', 'l', 'd']) =
        ['L', 'O', 'G', '.', 'o', 'l', 'd'] := by
      apply fileName_pathJoin
      intro c hc he
      subst he
      exact absurd hc (by decide)
    obtain ⟨hstem, _⟩ := stem_ext_split _ ['L', 'O', 'G'] ['o', 'l', 'd']
      (by decide) (by decide) (by decide) (by rw [hfn]; rfl)
    show parse_filename (pathJoin dir ['L', 'O', 'G', '.', 'o', 'l', 'd']) = _
    simp only [parse_filename, hstem, Option.getD_some]
    simp [hfn, expectedSeq]

/-- Witness for C10 at a numbered and an unnumbered file type. -/
theorem parse_generate_roundtrip_witness :
    parse_filename (generate_filename ['t', 'e', 's', 't'] .Log 10) =
      some (.Log, 10) ∧
    parse_filename (generate_filename ['t', 'e', 's', 't'] .Lock 1) =
      some (.Lock, 0) :=
  ⟨parse_generate_roundtrip ['t', 'e', 's', 't'] .Log 10 (by norm_num),
    parse_generate_roundtrip ['t', 'e', 's', 't'] .Lock 1 (by norm_num)⟩
